import Mathlib

/-!
Shallow embedding of the hid-bench HID report-descriptor engine.

Sources embedded here:
  * `src/hid/basic.rs` — basic item data model (`Collection::new`, item enums);
  * `src/hid/parser.rs` — the descriptor assembler (`ReportParser::read_items`,
    `read_global_item`, `read_local_item`, `create_input_item`, `qualify_usage`);
  * `src/hid/report.rs` — the report decoder (`Report::parse`, `Report::signed`,
    `Report::extract_value`).

Modelling conventions:
  * Machine integers (`u8`/`u16`/`u32`/`usize`) are `Nat`, `i32` is `Int`.
    Arithmetic that can overflow the Rust type is modelled with the
    debug-profile semantics the crate's own test-suite runs under: an
    overflowing add/sub/mul, or a shift whose amount reaches the type width,
    is a panic and is modelled as `none`.  `as` casts truncate (`% 2^w`).
  * Out-of-bounds slice/index accesses and explicit `panic!`/`expect`/`todo!`
    calls are panics, modelled as `none`.
  * Fallible functions therefore return `Option`; `none` means the Rust code
    panics on that input.
-/

/-- Collection type enum from `basic.rs` (`enum Collection`). -/
inductive BCollection where
  | physical
  | application
  | logical
  | report
  | namedArray
  | usageSwitch
  | usageModifier
  | reserved
  | vendor (n : Nat)
deriving DecidableEq, Repr

/-- Embedding of `Collection::new` from `basic.rs`.  The `data` byte is a `u8`,
so callers pass values `< 256`.  Note the Rust guard is the half-open range
`(7..0x7F).contains(&n)`. -/
def BCollection.new (data : Nat) : BCollection :=
  match data with
  | 0 => .physical
  | 1 => .application
  | 2 => .logical
  | 3 => .report
  | 4 => .namedArray
  | 5 => .usageSwitch
  | 6 => .usageModifier
  | n => if 7 ≤ n ∧ n < 0x7F then .reserved else .vendor n

/-- Main item enum from `basic.rs` (`enum MainItem`); the `data` payloads of
`InputItemData`/`OutputItemData`/`FeatureItemData` are `u32` values. -/
inductive MainItem where
  | input (data : Nat)
  | output (data : Nat)
  | feature (data : Nat)
  | collection (c : BCollection)
  | endCollection
  | reserved
deriving DecidableEq, Repr

/-- Global item enum from `basic.rs` (`enum GlobalItem`). -/
inductive GlobalItem where
  | usagePage (up : Nat)
  | logicalMinimum (lm : Int)
  | logicalMaximum (lm : Int)
  | physicalMinimum (pm : Int)
  | physicalMaximum (pm : Int)
  | unitExponent (ue : Nat)
  | unit (u : Nat)
  | reportSize (rs : Nat)
  | reportID (rid : Nat)
  | reportCount (rc : Nat)
  | push
  | pop
  | reserved
deriving DecidableEq, Repr

/-- Local item enum from `basic.rs` (`enum LocalItem`). -/
inductive LocalItem where
  | usage (u : Nat)
  | usageMinimum (um : Nat)
  | usageMaximum (um : Nat)
  | extendedUsage (up u : Nat)
  | extendedUsageMinimum (up um : Nat)
  | extendedUsageMaximum (up um : Nat)
  | designatorIndex (d : Nat)
  | designatorMinimum (d : Nat)
  | designatorMaximum (d : Nat)
  | stringIndex (s : Nat)
  | stringMinimum (s : Nat)
  | stringMaximum (s : Nat)
  | delimiter (open_ : Bool)
  | reserved
deriving DecidableEq, Repr

/-- Basic item enum from `basic.rs` (`enum BasicItem`).  The `Local` variant is
named `loc` because `local` is a Lean keyword. -/
inductive BasicItem where
  | main (m : MainItem)
  | global (g : GlobalItem)
  | loc (l : LocalItem)
  | reserved
deriving DecidableEq, Repr

/-- Report type enum from `report.rs` (`enum ReportType`); only `Input` exists
there, carrying the raw `u32` input-item flag bits. -/
inductive ReportType where
  | input (flags : Nat)
deriving DecidableEq, Repr

/-- The `Report` struct from `report.rs` (field-for-field; the `parser.rs`
duplicate has the same fields).  `u16` usage pairs are `Nat × Nat`, the
signed `i32` bounds are `Int`. -/
structure Report where
  report_type : ReportType
  usages : List (Nat × Nat)
  usage_minimum : Option (Nat × Nat)
  usage_maximum : Option (Nat × Nat)
  logical_minimum : Int
  logical_maximum : Int
  physical_minimum : Int
  physical_maximum : Int
  unit : Option Nat
  unit_exponent : Option Nat
  bit_offset : Nat
  report_id : Option Nat
  report_size : Nat
  report_count : Nat
deriving DecidableEq, Repr

/-- The `InputValue` enum (`input.rs` / `parser.rs`): Bool, UInt or Int. -/
inductive InputValue where
  | bool (b : Bool)
  | uint (v : Nat)
  | int (v : Int)
deriving DecidableEq, Repr

/-- The `Input` struct from the crate (`input.rs` / `parser.rs`): a usage
paired with a decoded value. -/
structure Input where
  usage : Nat × Nat
  value : InputValue
deriving DecidableEq, Repr

/-- Reinterpretation of a `u32` bit pattern as an `i32` (Rust `as i32`). -/
def u32AsI32 (x : Nat) : Int :=
  if x < 2 ^ 31 then (x : Int) else (x : Int) - 2 ^ 32

/-- Embedding of `Report::extract_value` from `report.rs`.

```rust
let first_byte = bit_offset / 8;
let last_byte = (bit_offset + bit_length as usize - 1) / 8;
let bit_shift = bit_offset % 8;
let bytes = &report[first_byte..=last_byte];
let mut value = 0u32;
for byte in 0..bytes.len() {
    value |= (bytes[byte as usize] as u32) << (8 * byte);
}
value >>= bit_shift;
value &= !(0xFFFFFFFFu32 << bit_length);
```

Panics modelled as `none`: the `usize` underflow in `last_byte` when
`bit_offset + bit_length = 0`; the slice access when `last_byte` is past the
end of `report`; the accumulator shift `8 * byte` reaching 32 (which happens
exactly when the slice has ≥ 5 bytes); and the mask shift when
`bit_length ≥ 32`.  For `bit_length < 32` the mask `!(0xFFFFFFFF << bit_length)`
computed in `u32` equals `2 ^ bit_length - 1`. -/
def extract_value (report : List Nat) (bit_offset : Nat) (bit_length : Nat) :
    Option Nat :=
  if bit_offset + bit_length = 0 then none
  else
    let first_byte := bit_offset / 8
    let last_byte := (bit_offset + bit_length - 1) / 8
    let bit_shift := bit_offset % 8
    if first_byte ≤ last_byte + 1 ∧ last_byte + 1 ≤ report.length then
      let bytes := (report.drop first_byte).take (last_byte + 1 - first_byte)
      if 5 ≤ bytes.length then none
      else if 32 ≤ bit_length then none
      else
        let value :=
          (List.range bytes.length).foldl
            (fun v i => v ||| ((bytes.getD i 0) <<< (8 * i))) 0
        some ((value >>> bit_shift) &&&
          (2 ^ 32 - 1 - ((0xFFFFFFFF <<< bit_length) % 2 ^ 32)))
    else none

/-- Embedding of `Report::signed` from `report.rs`.

```rust
let sign_mask = 1 << (length - 1);
let number_mask = !(0xFFFF_FFFF << (length - 1));
let sign = value & sign_mask;
let unsinged_number = value & number_mask;
if sign != 0 { (unsinged_number | !number_mask) as i32 }
else { unsinged_number as i32 }
```

`length = 0` underflows `length - 1` (panic → `none`); `length ≥ 33` makes
both shifts overflow (panic → `none`).  For `1 ≤ length ≤ 32` the `u32`
complement `!(0xFFFFFFFF << (length-1))` equals `2 ^ (length-1) - 1`. -/
def Report.signed (value : Nat) (length : Nat) : Option Int :=
  if length = 0 then none
  else if 33 ≤ length then none
  else
    let sign_mask := (1 <<< (length - 1)) % 2 ^ 32
    let number_mask := 2 ^ 32 - 1 - ((0xFFFFFFFF <<< (length - 1)) % 2 ^ 32)
    let sign := value &&& sign_mask
    let unsinged_number := value &&& number_mask
    if sign ≠ 0 then
      some (u32AsI32 (unsinged_number ||| (2 ^ 32 - 1 - number_mask)))
    else
      some (u32AsI32 unsinged_number)

/-- The two's-complement encoding of `v` as a `size`-bit value (the claim's
mathematical encoding; `Int.emod` is already the canonical representative). -/
def twosComplement (v : Int) (size : Nat) : Nat :=
  (v % ((2 : Int) ^ size)).toNat

/-- A zero-filled buffer with `value` written little-endian starting at bit
`bit_offset` (the claim's construction: bit `k` of `value` lands at absolute
bit `bit_offset + k`, bit 0 of byte 0 being the least significant). -/
def writeBits (value : Nat) (bit_offset : Nat) (bit_length : Nat) : List Nat :=
  (List.range ((bit_offset + bit_length - 1) / 8 + 1)).map
    (fun j => value * 2 ^ bit_offset / 2 ^ (8 * j) % 256)

/-- The usage branch of `Report::parse` from `report.rs`, for leaf index `i`:

```rust
let usage = if i < spec_usages { self.usages[i] }
else {
    if let Some((up, u)) = self.usage_minimum {
        (up, u + spec_usages as u16 + i as u16)
    } else {
        self.usages[self.usages.len() - 1]
    }
};
```

The `as u16` casts truncate; the two `u16` additions panic on overflow
(→ `none`).  The sticky-last-usage index `self.usages.len() - 1` is out of
bounds when `usages` is empty (`usize` underflow wraps the index): panic,
modelled by `List.get?` returning `none`. -/
def usageFor (r : Report) (i : Nat) : Option (Nat × Nat) :=
  let spec_usages := r.usages.length
  if i < spec_usages then r.usages.get? i
  else
    match r.usage_minimum with
    | some (up, u) =>
        let a := u + spec_usages % 65536
        if 65536 ≤ a then none
        else
          let b := a + i % 65536
          if 65536 ≤ b then none else some (up, b)
    | none => r.usages.get? (spec_usages - 1)

/-- Embedding of `Report::parse` from `report.rs`.  A constant field (flags
bit 0 set) yields an empty list; otherwise `report_count` leaves are built,
each from the usage branch (`usageFor`), a bit extraction and the value
classification match on `(logical_minimum, logical_maximum)`. -/
def Report.parse (r : Report) (report : List Nat) : Option (List Input) :=
  match r.report_type with
  | .input flags =>
    if flags &&& 1 = 1 then some []
    else
      (List.range r.report_count).mapM (fun i => do
        let usage ← usageFor r i
        let offset := r.bit_offset + r.report_size * i
        let base_value ← extract_value report offset r.report_size
        let value ←
          match r.logical_minimum, r.logical_maximum with
          | 0, 1 => some (InputValue.bool (base_value ≠ 0))
          | a, b =>
              if 0 ≤ a ∧ 0 ≤ b then some (InputValue.uint base_value)
              else (Report.signed base_value r.report_size).map InputValue.int
        some { usage := usage, value := value })

/-- The usage the decoder actually assigns to leaf `i` (total description used
to state the amended claim C6): `usages[i]` when `i < |usages|`; otherwise
`(page, u + |usages| + i)` (with the `u16` truncating casts) when
`usage_minimum` is set; otherwise the last element of `usages`.
`usage_maximum` is never consulted. -/
def describedUsage (r : Report) (i : Nat) : Nat × Nat :=
  if i < r.usages.length then r.usages.getD i (0, 0)
  else
    match r.usage_minimum with
    | some (up, u) => (up, u + r.usages.length % 65536 + i % 65536)
    | none => r.usages.getD (r.usages.length - 1) (0, 0)

/-- The `GlobalItems` state table from `parser.rs` (all fields optional). -/
structure GlobalItems where
  usage_page : Option Nat
  logical_minimum : Option Int
  logical_maximum : Option Int
  physical_minimum : Option Int
  physical_maximum : Option Int
  unit_exponent : Option Nat
  unit : Option Nat
  report_size : Option Nat
  report_id : Option Nat
  report_count : Option Nat
deriving DecidableEq, Repr

/-- `GlobalItems::new` from `parser.rs`: every field `None`. -/
def GlobalItems.new : GlobalItems :=
  { usage_page := none, logical_minimum := none, logical_maximum := none,
    physical_minimum := none, physical_maximum := none, unit_exponent := none,
    unit := none, report_size := none, report_id := none, report_count := none }

/-- The `LocalItems` state table from `parser.rs`; usage entries are
`(page, usage)` pairs of optional `u16`s. -/
structure LocalItems where
  usages : List (Option Nat × Option Nat)
  usage_minimum : Option Nat × Option Nat
  usage_maximum : Option Nat × Option Nat
  designator_index : Option Nat
  designator_minimum : Option Nat
  designator_maximum : Option Nat
  string_index : Option Nat
  string_minimum : Option Nat
  string_maximum : Option Nat
deriving DecidableEq, Repr

/-- `LocalItems::new` from `parser.rs`: empty usage list, everything unset. -/
def LocalItems.new : LocalItems :=
  { usages := [], usage_minimum := (none, none), usage_maximum := (none, none),
    designator_index := none, designator_minimum := none,
    designator_maximum := none, string_index := none, string_minimum := none,
    string_maximum := none }

/-- The `StateTable` from `parser.rs`.  The Rust field `local` is named `loc`
here because `local` is a Lean keyword. -/
structure StateTable where
  global : GlobalItems
  loc : LocalItems
deriving DecidableEq, Repr

/-- One child of a collection (`enum CollectionItem<Report>` from `parser.rs`,
with the `Collection<Report>` struct inlined into the `collection`
constructor so the type is a single nested inductive). -/
inductive CollectionItem where
  | collection (collection_type : BCollection) (usage : Nat × Nat)
      (designator_index : Option Nat) (string_index : Option Nat)
      (items : List CollectionItem)
  | item (r : Report)

/-- The `Collection<Report>` struct from `parser.rs`. -/
structure Collection where
  collection_type : BCollection
  usage : Nat × Nat
  designator_index : Option Nat
  string_index : Option Nat
  items : List CollectionItem

/-- Packages a finished collection as a child item (used by EndCollection). -/
def Collection.close (c : Collection) : CollectionItem :=
  .collection c.collection_type c.usage c.designator_index c.string_index
    c.items

/-- The assembler state of `ReportParser::read_items`: the two state tables,
the collection stack, and the running bit offset.  The extra `frozen` field
is an observer recording, in creation order, exactly the `Report` values that
`create_input_item` pushes into the tree; it changes no behaviour.  The stack
is kept head-first: the head of `stack` is the *back* of the Rust `VecDeque`
(the current top collection); its last element is the deque's front. -/
structure AsmState where
  state : StateTable
  stack : List Collection
  bit_offset : Nat
  frozen : List Report

/-- The initial assembler state of `read_items`. -/
def initState : AsmState :=
  { state := { global := GlobalItems.new, loc := LocalItems.new },
    stack := [], bit_offset := 0, frozen := [] }

/-- Embedding of `ReportParser::read_global_item` from `parser.rs`.
`Push`/`Pop` hit `todo!` (panic → `none`); `Reserved` is a no-op. -/
def read_global_item (st : StateTable) : GlobalItem → Option StateTable
  | .usagePage up => some { st with global.usage_page := some up }
  | .logicalMinimum lm => some { st with global.logical_minimum := some lm }
  | .logicalMaximum lm => some { st with global.logical_maximum := some lm }
  | .physicalMinimum pm => some { st with global.physical_minimum := some pm }
  | .physicalMaximum pm => some { st with global.physical_maximum := some pm }
  | .unitExponent ue => some { st with global.unit_exponent := some ue }
  | .unit u => some { st with global.unit := some u }
  | .reportSize rs => some { st with global.report_size := some rs }
  | .reportID rid => some { st with global.report_id := some rid }
  | .reportCount rc => some { st with global.report_count := some rc }
  | .push => none
  | .pop => none
  | .reserved => some st

/-- Embedding of `ReportParser::read_local_item` from `parser.rs`.
`Delimiter` hits `todo!` (panic → `none`); designators, strings and
`Reserved` are no-ops (the Rust code `return`s without storing them). -/
def read_local_item (st : StateTable) : LocalItem → Option StateTable
  | .usage u => some { st with loc.usages := st.loc.usages ++ [(none, some u)] }
  | .usageMinimum um => some { st with loc.usage_minimum := (none, some um) }
  | .usageMaximum um => some { st with loc.usage_maximum := (none, some um) }
  | .extendedUsage up u =>
      some { st with loc.usages := st.loc.usages ++ [(some up, some u)] }
  | .extendedUsageMinimum up um =>
      some { st with loc.usage_minimum := (some up, some um) }
  | .extendedUsageMaximum up um =>
      some { st with loc.usage_maximum := (some up, some um) }
  | .delimiter _ => none
  | .designatorIndex _ => some st
  | .designatorMinimum _ => some st
  | .designatorMaximum _ => some st
  | .stringIndex _ => some st
  | .stringMinimum _ => some st
  | .stringMaximum _ => some st
  | .reserved => some st

/-- Embedding of `ReportParser::qualify_usage` from `parser.rs`.  The outer
`Option` is the panic channel (`none` = the Rust function panics); the inner
`Option` is the Rust return value. -/
def qualify_usage (usage_page : Option Nat) (usage : Option Nat × Option Nat) :
    Option (Option (Nat × Nat)) :=
  match usage_page, usage with
  | _, (none, none) => some none
  | _, (some up, some us) => some (some (up, us))
  | some up, (none, some us) => some (some (up, us))
  | none, (none, some _) => none
  | _, _ => none

/-- Embedding of `ReportParser::create_input_item` from `parser.rs`.  Returns
the updated state table, stack and bit offset together with the frozen
`Report`.  Every `expect` is a panic (→ `none`); so are an empty collection
stack (`collection_stack[len - 1]` underflows) and `u32` overflow of
`report_count * report_size` or of the bit-offset addition.  Note the
defaulting of `physical_maximum` reads `global.physical_minimum` — that is
what the source does. -/
def create_input_item (st : StateTable) (collection_stack : List Collection)
    (bit_offset : Nat) (data : Nat) :
    Option (StateTable × List Collection × Nat × Report) := do
  let report_type := ReportType.input data
  let usage_page := st.global.usage_page
  let usages ← st.loc.usages.mapM
    (fun usage => (qualify_usage usage_page usage).bind id)
  let usage_maximum ← qualify_usage usage_page st.loc.usage_maximum
  let usage_minimum ← qualify_usage usage_page st.loc.usage_minimum
  let report_size ← st.global.report_size
  let report_count ← st.global.report_count
  let logical_minimum ← st.global.logical_minimum
  let logical_maximum ← st.global.logical_maximum
  let physical_minimum := (st.global.physical_minimum).getD logical_minimum
  let physical_maximum := (st.global.physical_minimum).getD logical_maximum
  let report : Report :=
    { report_type := report_type, usages := usages,
      usage_minimum := usage_minimum, usage_maximum := usage_maximum,
      bit_offset := bit_offset, report_id := st.global.report_id,
      report_size := report_size, report_count := report_count,
      logical_minimum := logical_minimum, logical_maximum := logical_maximum,
      physical_minimum := physical_minimum,
      physical_maximum := physical_maximum, unit := st.global.unit,
      unit_exponent := st.global.unit_exponent }
  match collection_stack with
  | [] => none
  | top :: rest =>
      let prod := report_count * report_size
      if 2 ^ 32 ≤ prod then none
      else if 2 ^ 32 ≤ bit_offset + prod then none
      else
        some ({ st with loc := LocalItems.new },
          { top with items := top.items ++ [CollectionItem.item report] } ::
            rest,
          bit_offset + prod, report)

/-- One iteration of the `for item in basic_items` loop of
`ReportParser::read_items` from `parser.rs`. -/
def readItem (s : AsmState) : BasicItem → Option AsmState
  | .global g =>
      (read_global_item s.state g).map fun st => { s with state := st }
  | .loc l =>
      (read_local_item s.state l).map fun st => { s with state := st }
  | .main (.input d) =>
      (create_input_item s.state s.stack s.bit_offset d).map
        fun out =>
          { state := out.1, stack := out.2.1, bit_offset := out.2.2.1,
            frozen := s.frozen ++ [out.2.2.2] }
  | .main (.output _) => some s
  | .main (.feature _) => some s
  | .main (.collection c) =>
      if s.state.loc.usages.length ≠ 1 then none
      else do
        let local_usage := s.state.loc.usages.getD 0 (none, none)
        let usage ←
          (qualify_usage s.state.global.usage_page local_usage).bind id
        some { s with
          stack :=
            { collection_type := c, usage := usage, designator_index := none,
              string_index := none, items := [] } :: s.stack,
          state := { s.state with loc := LocalItems.new } }
  | .main .endCollection =>
      match s.stack with
      | [] => none
      | [_] => some s
      | top :: parent :: rest =>
          some { s with
            stack :=
              { parent with
                items := parent.items ++ [Collection.close top] } :: rest }
  | .main .reserved => some s
  | .reserved => some s

/-- The whole item loop of `ReportParser::read_items`, returning the final
assembler state. -/
def read_items_state (items : List BasicItem) : Option AsmState :=
  items.foldlM readItem initState

/-- Embedding of `ReportParser::read_items`: run the loop, then
`collection_stack.pop_front().expect(..)` — the deque's front is the last
element of our head-first stack. -/
def read_items (items : List BasicItem) : Option Collection :=
  (read_items_state items).bind fun s => s.stack.getLast?

/-- Prefix sums: element `k` is the sum of the first `k` elements. -/
def prefixSums : List Nat → List Nat
  | [] => []
  | x :: xs => 0 :: (prefixSums xs).map (x + ·)

/-- Item sequence of a small descriptor with three Input items of
(size, count) = (8,2), (4,3), (1,14), used to witness claim C1. -/
def c1Items : List BasicItem :=
  [.global (.usagePage 1), .loc (.usage 4), .main (.collection .application),
   .global (.logicalMinimum 0), .global (.logicalMaximum 10),
   .global (.reportSize 8), .global (.reportCount 2), .main (.input 2),
   .global (.reportSize 4), .global (.reportCount 3), .main (.input 2),
   .global (.reportSize 1), .global (.reportCount 14), .main (.input 2),
   .main .endCollection]

/-- The assembler state reached on `c1Items` (which succeeds). -/
def c1State : AsmState :=
  match read_items_state c1Items with
  | some s => s
  | none => initState

/-- Item sequence of a descriptor that sets Physical Maximum 5 (and no
Physical Minimum) before an Input item; logical bounds are 0..10.  Exercises
the physical-bounds defaulting of claim C2. -/
def c2Items : List BasicItem :=
  [.global (.usagePage 1), .loc (.usage 4), .main (.collection .application),
   .global (.logicalMinimum 0), .global (.logicalMaximum 10),
   .global (.physicalMaximum 5), .global (.reportSize 8),
   .global (.reportCount 1), .main (.input 2), .main .endCollection]

/-- An assembler state whose Local table holds one pending usage, fed to a
Main/Output item for the claim C5 counterexample. -/
def c5CexState : AsmState :=
  { state := { global := GlobalItems.new,
               loc := { LocalItems.new with usages := [(none, some 1)] } },
    stack := [], bit_offset := 0, frozen := [] }

/-- An assembler state ready for a successful Main/Input item (all required
globals set, one open collection), used to witness claim C5. -/
def c5WitnessState : AsmState :=
  { state :=
      { global :=
          { GlobalItems.new with
              logical_minimum := some 0,
              logical_maximum := some 1,
              report_size := some 1,
              report_count := some 1 },
        loc := { LocalItems.new with usages := [(some 1, some 2)] } },
    stack := [{ collection_type := .application, usage := (1, 1),
                designator_index := none, string_index := none, items := [] }],
    bit_offset := 0, frozen := [] }

/-- The state after `c5WitnessState` processes a Main/Input item. -/
def c5WitnessResult : AsmState :=
  match readItem c5WitnessState (.main (.input 2)) with
  | some s => s
  | none => c5WitnessState

/-- A Field with one Usage, a UsageMinimum of 5 and a UsageMaximum of 6, and
`report_count = 2`: the claim C6 counterexample (the claim predicts usage
`(1, 6)` for the second leaf). -/
def c6CexReport : Report :=
  { report_type := .input 2, usages := [(1, 9)], usage_minimum := some (1, 5),
    usage_maximum := some (1, 6), logical_minimum := 0, logical_maximum := 255,
    physical_minimum := 0, physical_maximum := 255, unit := none,
    unit_exponent := none, bit_offset := 0, report_id := none,
    report_size := 8, report_count := 2 }

/-- Scenario 6 of the spec: UsageMinimum 1, no Usage items, 14 one-bit
controls. -/
def c6ScenarioReport : Report :=
  { report_type := .input 2, usages := [], usage_minimum := some (9, 1),
    usage_maximum := some (9, 14), logical_minimum := 0, logical_maximum := 1,
    physical_minimum := 0, physical_maximum := 1, unit := none,
    unit_exponent := none, bit_offset := 0, report_id := none,
    report_size := 1, report_count := 14 }

/-- The leaves decoded from `c6ScenarioReport` on a two-byte report. -/
def c6ScenarioInputs : List Input :=
  match Report.parse c6ScenarioReport [0, 0] with
  | some l => l
  | none => []

/-- A one-byte Field tagged with Report ID 2, for claim C7. -/
def c7Report : Report :=
  { report_type := .input 2, usages := [(1, 1)], usage_minimum := none,
    usage_maximum := none, logical_minimum := 0, logical_maximum := 255,
    physical_minimum := 0, physical_maximum := 255, unit := none,
    unit_exponent := none, bit_offset := 0, report_id := some 2,
    report_size := 8, report_count := 1 }

/-- A one-byte Field with no Report ID, for claim C8 (its bit range needs one
byte, so any shorter report is too short). -/
def c8Report : Report :=
  { report_type := .input 2, usages := [(1, 1)], usage_minimum := none,
    usage_maximum := none, logical_minimum := 0, logical_maximum := 255,
    physical_minimum := 0, physical_maximum := 255, unit := none,
    unit_exponent := none, bit_offset := 0, report_id := none,
    report_size := 8, report_count := 1 }

/-- A non-constant Field with no usages and no usage minimum, for claim
C10. -/
def c10Report : Report :=
  { report_type := .input 2, usages := [], usage_minimum := none,
    usage_maximum := none, logical_minimum := 0, logical_maximum := 255,
    physical_minimum := 0, physical_maximum := 255, unit := none,
    unit_exponent := none, bit_offset := 0, report_id := none,
    report_size := 8, report_count := 1 }

/-- The `u32` complement mask `!(0xFFFFFFFF << len)` equals `2 ^ len - 1` for
shift amounts below the width. -/
lemma u32_shl_mask (len : Nat) (h : len ≤ 31) :
    2 ^ 32 - 1 - ((0xFFFFFFFF <<< len) % 2 ^ 32) = 2 ^ len - 1 := by
  interval_cases len <;> decide

/-- The little-endian accumulator loop of `extract_value`: or-ing bytes of `Y`
shifted into place reassembles `Y` modulo `2 ^ (8n)`. -/
lemma foldl_or_eq_mod (g : Nat → Nat) (Y : Nat) (n : Nat) :
    (∀ i, i < n → g i = Y / 2 ^ (8 * i) % 256) →
      (List.range n).foldl (fun v i => v ||| (g i <<< (8 * i))) 0 =
        Y % 2 ^ (8 * n) := by
  induction n with
  | zero => intro _; simp [Nat.mod_one]
  | succ n ih =>
      intro hg
      rw [List.range_succ, List.foldl_append, ih (fun i hi => hg i (by omega))]
      simp only [List.foldl_cons, List.foldl_nil]
      rw [hg n (by omega), Nat.shiftLeft_eq,
        Nat.mul_comm (Y / 2 ^ (8 * n) % 256) (2 ^ (8 * n)), Nat.or_comm,
        ← Nat.mul_add_lt_is_or (Nat.mod_lt Y (by positivity))
          (Y / 2 ^ (8 * n) % 256)]
      have h2 : 2 ^ (8 * (n + 1)) = 2 ^ (8 * n) * 256 := by
        rw [Nat.mul_succ, pow_add]; norm_num
      rw [h2, Nat.mod_mul]
      omega

/-- Round-trip of `extract_value` against the little-endian write: helper for
claim C3's amended statement. -/
lemma extract_writeBits (value bit_offset bit_length : Nat)
    (hlen : 1 ≤ bit_length) (hlen31 : bit_length ≤ 31)
    (hspan : bit_offset % 8 + bit_length ≤ 32) (hv : value < 2 ^ bit_length) :
    extract_value (writeBits value bit_offset bit_length) bit_offset
      bit_length = some value := by
  have hne : ¬(bit_offset + bit_length = 0) := by omega
  have hL : (writeBits value bit_offset bit_length).length =
      (bit_offset + bit_length - 1) / 8 + 1 := by simp [writeBits]
  have hn4 : ¬(5 ≤ (bit_offset + bit_length - 1) / 8 + 1 - bit_offset / 8) := by
    omega
  have h32 : ¬(32 ≤ bit_length) := by omega
  have hgetD : ∀ i, i < (bit_offset + bit_length - 1) / 8 + 1 - bit_offset / 8 →
      (((writeBits value bit_offset bit_length).drop (bit_offset / 8)).take
          ((bit_offset + bit_length - 1) / 8 + 1 - bit_offset / 8)).getD i 0 =
        value * 2 ^ bit_offset / 2 ^ (8 * (bit_offset / 8)) / 2 ^ (8 * i) %
          256 := by
    intro i hi
    rw [List.getD_eq_get?, List.get?_take hi, List.get?_drop]
    have hji : bit_offset / 8 + i < (bit_offset + bit_length - 1) / 8 + 1 := by
      omega
    rw [writeBits, List.get?_map, List.get?_range hji]
    simp only [Option.map_some', Option.getD_some]
    rw [Nat.div_div_eq_div_mul, ← pow_add]
    congr 3
    omega
  have hfold := foldl_or_eq_mod _
    (value * 2 ^ bit_offset / 2 ^ (8 * (bit_offset / 8))) _ hgetD
  have hlen2 : (((writeBits value bit_offset bit_length).drop
      (bit_offset / 8)).take
        ((bit_offset + bit_length - 1) / 8 + 1 - bit_offset / 8)).length =
      (bit_offset + bit_length - 1) / 8 + 1 - bit_offset / 8 := by
    rw [List.length_take, List.length_drop, hL]
    omega
  have hY : value * 2 ^ bit_offset / 2 ^ (8 * (bit_offset / 8)) =
      value * 2 ^ (bit_offset % 8) := by
    calc value * 2 ^ bit_offset / 2 ^ (8 * (bit_offset / 8))
        = 2 ^ (8 * (bit_offset / 8)) * (value * 2 ^ (bit_offset % 8)) /
            2 ^ (8 * (bit_offset / 8)) := by
          rw [show 2 ^ (8 * (bit_offset / 8)) * (value * 2 ^ (bit_offset % 8))
              = value * (2 ^ (8 * (bit_offset / 8)) * 2 ^ (bit_offset % 8))
            from by ring, ← pow_add,
            show 8 * (bit_offset / 8) + bit_offset % 8 = bit_offset from by
              omega]
      _ = value * 2 ^ (bit_offset % 8) :=
          Nat.mul_div_cancel_left _ (by positivity)
  have hmod : value * 2 ^ (bit_offset % 8) %
      2 ^ (8 * ((bit_offset + bit_length - 1) / 8 + 1 - bit_offset / 8)) =
      value * 2 ^ (bit_offset % 8) := by
    apply Nat.mod_eq_of_lt
    calc value * 2 ^ (bit_offset % 8)
        < 2 ^ bit_length * 2 ^ (bit_offset % 8) :=
          (Nat.mul_lt_mul_right (by positivity)).mpr hv
      _ = 2 ^ (bit_length + bit_offset % 8) := (pow_add 2 _ _).symm
      _ ≤ 2 ^ (8 * ((bit_offset + bit_length - 1) / 8 + 1 - bit_offset / 8)) :=
          Nat.pow_le_pow_right (by norm_num) (by omega)
  simp only [extract_value, hL, if_neg hne, if_neg hn4, if_neg h32, hlen2,
    hfold, hY, hmod]
  rw [if_pos (by constructor <;> omega)]
  rw [Nat.shiftRight_eq_div_pow, Nat.mul_div_cancel _ (by positivity),
    u32_shl_mask _ hlen31, Nat.and_pow_two_sub_one_eq_mod,
    Nat.mod_eq_of_lt hv]

/-- Whenever `extract_value` returns a value it has been masked to
`bit_length` bits. -/
lemma extract_value_lt (report : List Nat) (bit_offset bit_length v : Nat)
    (h : extract_value report bit_offset bit_length = some v) :
    v < 2 ^ bit_length := by
  simp only [extract_value] at h
  split_ifs at h with h0 hg h5 h32
  rw [u32_shl_mask _ (by omega), Nat.and_pow_two_sub_one_eq_mod] at h
  cases h
  exact Nat.mod_lt _ (by positivity)

/-- A number below `2 ^ k` has bit `k` clear. -/
lemma and_two_pow_eq_zero (x k : Nat) (h : x < 2 ^ k) : x &&& 2 ^ k = 0 := by
  rw [Nat.and_two_pow, Nat.testBit_lt_two_pow h]
  simp

/-- A number in `[2 ^ k, 2 ^ (k+1))` has bit `k` set. -/
lemma and_two_pow_of_ge (x k : Nat) (hlo : 2 ^ k ≤ x) (hhi : x < 2 ^ (k + 1)) :
    x &&& 2 ^ k = 2 ^ k := by
  have h1 : 1 ≤ x / 2 ^ k := (Nat.one_le_div_iff (by positivity)).mpr hlo
  have h2 : x / 2 ^ k < 2 := Nat.div_lt_of_lt_mul (by rw [pow_succ] at hhi; omega)
  have hx : x / 2 ^ k = 1 := by omega
  simp [Nat.and_two_pow, Nat.testBit_to_div_mod, hx]

/-- Sign-extension round-trip for `Report::signed`: helper for claim C4. -/
lemma signed_twosComplement (size : Nat) (v : Int) (h1 : 1 ≤ size)
    (h2 : size ≤ 32) (hlo : -((2 : Int) ^ (size - 1)) ≤ v)
    (hhi : v ≤ (2 : Int) ^ (size - 1) - 1) :
    Report.signed (twosComplement v size) size = some v := by
  obtain ⟨k, rfl⟩ : ∃ k, size = k + 1 := ⟨size - 1, by omega⟩
  simp only [Nat.add_sub_cancel] at hlo hhi
  have hk31 : k ≤ 31 := by omega
  have hcast : ((2 : Int) ^ k) = ((2 ^ k : Nat) : Int) := by push_cast; ring
  have hc2 : ((2 : Int) ^ (k + 1)) = 2 * ((2 ^ k : Nat) : Int) := by
    push_cast; ring
  have hPpos : 0 < (2 : Nat) ^ k := by positivity
  have hP31 : (2 : Nat) ^ k ≤ 2 ^ 31 := Nat.pow_le_pow_right (by norm_num) hk31
  have h231 : (2 : Nat) ^ 31 = 2147483648 := by norm_num
  have h232 : (2 : Nat) ^ 32 = 4294967296 := by norm_num
  have hsize0 : ¬(k + 1 = 0) := by omega
  have hsize33 : ¬(33 ≤ k + 1) := by omega
  have hsign_mask : (1 <<< k) % 2 ^ 32 = 2 ^ k := by
    rw [Nat.shiftLeft_eq, one_mul, Nat.mod_eq_of_lt (by omega)]
  have hnum_mask := u32_shl_mask k hk31
  simp only [Report.signed, if_neg hsize0, if_neg hsize33, Nat.add_sub_cancel,
    hsign_mask, hnum_mask]
  rcases le_or_lt 0 v with hv | hv
  · have hveq : twosComplement v (k + 1) = v.toNat := by
      unfold twosComplement
      rw [Int.emod_eq_of_lt hv (by omega)]
    have htoNat : (v.toNat : Int) = v := Int.toNat_of_nonneg hv
    have hvlt : v.toNat < 2 ^ k := by omega
    rw [hveq, and_two_pow_eq_zero _ _ hvlt, if_neg (by simp),
      Nat.and_pow_two_sub_one_eq_mod, Nat.mod_eq_of_lt hvlt, u32AsI32,
      if_pos (by omega), htoNat]
  · have hm : v % ((2 : Int) ^ (k + 1)) = v + (2 : Int) ^ (k + 1) := by
      have hself : (v + (2 : Int) ^ (k + 1) * 1) % ((2 : Int) ^ (k + 1)) =
          v % ((2 : Int) ^ (k + 1)) :=
        Int.add_mul_emod_self_left v ((2 : Int) ^ (k + 1)) 1
      rw [mul_one] at hself
      rw [← hself, Int.emod_eq_of_lt (by omega) (by omega)]
    have hweq : twosComplement v (k + 1) = (v + (2 : Int) ^ (k + 1)).toNat := by
      unfold twosComplement
      rw [hm]
    have hwcast : (((v + (2 : Int) ^ (k + 1)).toNat : Nat) : Int) =
        v + (2 : Int) ^ (k + 1) := Int.toNat_of_nonneg (by omega)
    have hwlo : 2 ^ k ≤ (v + (2 : Int) ^ (k + 1)).toNat := by omega
    have hwhi : (v + (2 : Int) ^ (k + 1)).toNat < 2 ^ (k + 1) := by
      rw [pow_succ]
      omega
    obtain ⟨c, hc⟩ : ∃ c, 2 ^ (32 - k) = c + 1 := by
      refine ⟨2 ^ (32 - k) - 1, ?_⟩
      have hpos : 0 < (2 : Nat) ^ (32 - k) := by positivity
      omega
    have ha : 2 ^ k * (c + 1) = 2 ^ 32 := by
      rw [← hc, ← pow_add]
      congr 1
      omega
    have ha2 : 2 ^ k * c + 2 ^ k = 2 ^ 32 := by
      rw [Nat.mul_add, mul_one] at ha
      omega
    have hmaskc : 2 ^ 32 - 1 - (2 ^ k - 1) = 2 ^ k * c := by omega
    have hblt : (v + (2 : Int) ^ (k + 1)).toNat - 2 ^ k < 2 ^ k := by
      rw [pow_succ] at hwhi
      omega
    have hsub : (v + (2 : Int) ^ (k + 1)).toNat % 2 ^ k =
        (v + (2 : Int) ^ (k + 1)).toNat - 2 ^ k := by
      rw [Nat.mod_eq_sub_mod hwlo, Nat.mod_eq_of_lt hblt]
    have h232i : ((2 : Int) ^ 32) = 4294967296 := by norm_num
    rw [hweq, and_two_pow_of_ge _ _ hwlo hwhi, if_pos (by positivity),
      Nat.and_pow_two_sub_one_eq_mod, hsub, hmaskc, Nat.or_comm,
      ← Nat.mul_add_lt_is_or hblt c, u32AsI32]
    obtain ⟨X, hX⟩ : ∃ X, 2 ^ k * c = X := ⟨_, rfl⟩
    rw [hX] at ha2 ⊢
    rw [if_neg (show ¬(X +
        ((v + (2 : Int) ^ (k + 1)).toNat - 2 ^ k) < 2 ^ 31) from by omega)]
    simp only [Option.some.injEq]
    omega

/-- Successful `Option.mapM` runs transport pointwise facts to the output
list. -/
lemma mapM_option_rel {α β γ : Type} (f : α → Option β) (g : β → γ)
    (d : α → γ) (l : List α) (ins : List β) (h : l.mapM f = some ins)
    (hfd : ∀ a b, f a = some b → g b = d a) : ins.map g = l.map d := by
  induction l generalizing ins with
  | nil =>
      rw [List.mapM_nil] at h
      cases h
      simp
  | cons a l ih =>
      rw [List.mapM_cons] at h
      cases hfa : f a with
      | none => rw [hfa] at h; simp at h
      | some b =>
          rw [hfa] at h
          cases hml : l.mapM f with
          | none => rw [hml] at h; simp at h
          | some bs =>
              rw [hml] at h
              simp only [Option.bind_eq_bind, Option.some_bind,
                Option.pure_def, Option.some.injEq] at h
              cases h
              simp only [List.map_cons, hfd a b hfa, ih bs hml]

/-- Whatever `usageFor` returns is what `describedUsage` predicts. -/
lemma usageFor_eq_describedUsage (r : Report) (i : Nat) (u : Nat × Nat)
    (h : usageFor r i = some u) : u = describedUsage r i := by
  by_cases hlt : i < r.usages.length
  · simp only [usageFor, if_pos hlt] at h
    simp only [describedUsage, if_pos hlt, List.getD_eq_get?, h,
      Option.getD_some]
  · simp only [usageFor, if_neg hlt] at h
    simp only [describedUsage, if_neg hlt]
    cases hmin : r.usage_minimum with
    | some pu =>
        obtain ⟨up, u0⟩ := pu
        rw [hmin] at h
        dsimp only at h
        split_ifs at h
        cases h
        rfl
    | none =>
        rw [hmin] at h
        dsimp only at h
        rw [List.getD_eq_get?, h, Option.getD_some]

/-- Appending to the right of `prefixSums` appends the total sum. -/
lemma prefixSums_append (l : List Nat) (a : Nat) :
    prefixSums (l ++ [a]) = prefixSums l ++ [l.sum] := by
  induction l with
  | nil => simp [prefixSums]
  | cons x xs ih => simp [prefixSums, ih, List.sum_cons]

/-- What a successful `create_input_item` does to the state: the Global table
is untouched, the Local table is cleared, the frozen Report records the
incoming bit offset, and the offset advances by
`report_count * report_size`. -/
lemma create_input_item_spec (st : StateTable) (stack : List Collection)
    (off d : Nat) (out : StateTable × List Collection × Nat × Report)
    (h : create_input_item st stack off d = some out) :
    out.1.global = st.global ∧ out.1.loc = LocalItems.new ∧
    out.2.2.2.bit_offset = off ∧
    out.2.2.1 = off + out.2.2.2.report_count * out.2.2.2.report_size := by
  simp only [create_input_item, Option.bind_eq_bind, Option.bind_eq_some] at h
  obtain ⟨us, hus, h⟩ := h
  obtain ⟨umax, humax, h⟩ := h
  obtain ⟨umin, humin, h⟩ := h
  obtain ⟨rs, hrs, h⟩ := h
  obtain ⟨rc, hrc, h⟩ := h
  obtain ⟨lmin, hlmin, h⟩ := h
  obtain ⟨lmax, hlmax, h⟩ := h
  cases stack with
  | nil => simp at h
  | cons top rest =>
      simp only [] at h
      split_ifs at h
      cases h
      exact ⟨rfl, rfl, rfl, rfl⟩

/-- One assembler step preserves the prefix-sum invariant relating the frozen
Fields' bit offsets to the running offset. -/
lemma readItem_offset_invariant (s : AsmState) (it : BasicItem)
    (s' : AsmState) (h : readItem s it = some s')
    (h1 : s.bit_offset =
      (s.frozen.map (fun r => r.report_count * r.report_size)).sum)
    (h2 : s.frozen.map Report.bit_offset =
      prefixSums (s.frozen.map (fun r => r.report_count * r.report_size))) :
    s'.bit_offset =
      (s'.frozen.map (fun r => r.report_count * r.report_size)).sum ∧
    s'.frozen.map Report.bit_offset =
      prefixSums (s'.frozen.map (fun r => r.report_count * r.report_size)) := by
  cases it with
  | global g =>
      simp only [readItem, Option.map_eq_some'] at h
      obtain ⟨st, _, rfl⟩ := h
      exact ⟨h1, h2⟩
  | loc l =>
      simp only [readItem, Option.map_eq_some'] at h
      obtain ⟨st, _, rfl⟩ := h
      exact ⟨h1, h2⟩
  | reserved =>
      simp only [readItem] at h
      cases h
      exact ⟨h1, h2⟩
  | main m =>
      cases m with
      | input dta =>
          simp only [readItem, Option.map_eq_some'] at h
          obtain ⟨out, hout, rfl⟩ := h
          obtain ⟨-, -, hboff, hnoff⟩ :=
            create_input_item_spec _ _ _ _ _ hout
          constructor
          · simp only [List.map_append, List.sum_append, List.map_cons,
              List.map_nil, List.sum_cons, List.sum_nil]
            rw [hnoff, h1]
            omega
          · simp only [List.map_append, List.map_cons, List.map_nil,
              prefixSums_append, h2, hboff, h1]
      | output dta =>
          simp only [readItem] at h
          cases h
          exact ⟨h1, h2⟩
      | feature dta =>
          simp only [readItem] at h
          cases h
          exact ⟨h1, h2⟩
      | reserved =>
          simp only [readItem] at h
          cases h
          exact ⟨h1, h2⟩
      | collection c =>
          simp only [readItem] at h
          split_ifs at h
          simp only [Option.bind_eq_bind, Option.bind_eq_some] at h
          obtain ⟨u, hu, h⟩ := h
          cases h
          exact ⟨h1, h2⟩
      | endCollection =>
          simp only [readItem] at h
          rcases hst : s.stack with _ | ⟨top, _ | ⟨parent, rest⟩⟩ <;>
            rw [hst] at h <;> first
              | (cases h; exact ⟨h1, h2⟩)
              | cases h

/-- The whole assembler run preserves the offset invariant. -/
lemma run_offset_invariant (items : List BasicItem) :
    ∀ (s s' : AsmState), items.foldlM readItem s = some s' →
      s.bit_offset =
        (s.frozen.map (fun r => r.report_count * r.report_size)).sum →
      s.frozen.map Report.bit_offset =
        prefixSums (s.frozen.map (fun r => r.report_count * r.report_size)) →
      s'.bit_offset =
        (s'.frozen.map (fun r => r.report_count * r.report_size)).sum ∧
      s'.frozen.map Report.bit_offset =
        prefixSums (s'.frozen.map (fun r => r.report_count * r.report_size)) := by
  induction items with
  | nil =>
      intro s s' h h1 h2
      rw [List.foldlM_nil] at h
      cases h
      exact ⟨h1, h2⟩
  | cons a l ih =>
      intro s s' h h1 h2
      rw [List.foldlM_cons] at h
      cases hstep : readItem s a with
      | none => rw [hstep] at h; simp at h
      | some t =>
          rw [hstep] at h
          simp only [Option.bind_eq_bind, Option.some_bind] at h
          obtain ⟨g1, g2⟩ := readItem_offset_invariant s a t hstep h1 h2
          exact ih t s' h g1 g2

example : extract_value [0b1] 0 1 = some 1 := by decide
example : extract_value [0b10] 1 1 = some 1 := by decide
example : extract_value [0, 0, 0b100] 18 1 = some 1 := by decide
example : extract_value [0b10000000, 0b10, 0b00011] 7 11 = some 0b11000000101 := by
  decide
example : Report.signed 0xE5 8 = some (-27) := by decide
example : Report.signed 0x7F 8 = some 127 := by decide
example : Report.signed 0x81 8 = some (-127) := by decide
example : extract_value (writeBits 5 7 11) 7 11 = some 5 := by decide
example : extract_value (writeBits 1 0 32) 0 32 = none := by decide

/-- C1: for every descriptor whose assembly succeeds, the running bit offset
starts at 0 and only Main/Input items advance it, by exactly
`report_count × report_size`; hence the k-th frozen Field's `bit_offset` is
the sum of the earlier Fields' `size·count` products (the frozen list records
the Fields in creation order, so the offset list equals the prefix sums and
the final running offset equals the total). -/
theorem c1_input_offsets_prefix_sums (items : List BasicItem) (s : AsmState)
    (h : read_items_state items = some s) :
    s.frozen.map Report.bit_offset =
      prefixSums (s.frozen.map (fun r => r.report_count * r.report_size)) ∧
    s.bit_offset =
      (s.frozen.map (fun r => r.report_count * r.report_size)).sum := by
  have hg := run_offset_invariant items initState s h rfl rfl
  exact ⟨hg.2, hg.1⟩

/-- Witness for C1: on `c1Items` (sizes/counts (8,2), (4,3), (1,14)) the
frozen offsets are the prefix sums 0, 16, 28. -/
theorem c1_witness :
    c1State.frozen.map Report.bit_offset =
      prefixSums (c1State.frozen.map (fun r => r.report_count * r.report_size)) ∧
    c1State.bit_offset =
      (c1State.frozen.map (fun r => r.report_count * r.report_size)).sum :=
  c1_input_offsets_prefix_sums c1Items c1State (by rfl)

example : c1State.frozen.map Report.bit_offset = [0, 16, 28] := by decide
example : c1State.bit_offset = 42 := by decide

/-- C2: the claim says a set global `physical_maximum` reaches the frozen
Field.  The code instead reads `global.physical_minimum` when defaulting the
maximum, so with Physical Maximum 5 set (and no Physical Minimum) and logical
bounds 0..10, the frozen Field gets `physical_maximum = 10` (the logical
maximum) although the global table still holds 5: a bug in the source, also
called out by the spec's design notes. -/
theorem c2_physical_bounds_bug :
    (read_items_state c2Items).map
        (fun s =>
          (s.frozen.map fun r => (r.physical_minimum, r.physical_maximum),
            s.state.global.physical_maximum)) =
      some ([((0 : Int), (10 : Int))], some 5) ∧ (10 : Int) ≠ 5 := by
  constructor
  · rfl
  · decide

/-- C3 (amended): the extraction round-trip holds for sizes 1..31 whenever
the value's bit span fits the 32-bit accumulator
(`offset % 8 + size ≤ 32`); any returned value is masked below `2 ^ size`;
and the four literal scenarios hold.  The claim's full range `size ∈ [1,32]`
fails: see the counterexample. -/
theorem c3_extract_roundtrip_amended :
    (∀ value bit_offset bit_length, 1 ≤ bit_length → bit_length ≤ 31 →
        bit_offset % 8 + bit_length ≤ 32 → value < 2 ^ bit_length →
        extract_value (writeBits value bit_offset bit_length) bit_offset
          bit_length = some value) ∧
    (∀ report bit_offset bit_length v, 1 ≤ bit_length → bit_length ≤ 32 →
        extract_value report bit_offset bit_length = some v →
        v < 2 ^ bit_length) ∧
    extract_value [0b1] 0 1 = some 1 ∧
    extract_value [0b10] 1 1 = some 1 ∧
    extract_value [0, 0, 0b100] 18 1 = some 1 ∧
    extract_value [0b10000000, 0b10, 0b00011] 7 11 = some 0b11000000101 :=
  ⟨extract_writeBits,
   fun report bit_offset bit_length v _ _ h =>
     extract_value_lt report bit_offset bit_length v h,
   by decide, by decide, by decide, by decide⟩

/-- Witness for C3: extracting the written value 5 at offset 7, size 11. -/
theorem c3_witness : extract_value (writeBits 5 7 11) 7 11 = some 5 :=
  c3_extract_roundtrip_amended.1 5 7 11 (by decide) (by decide) (by decide)
    (by decide)

/-- Counterexample for C3 as stated: at size 32 (allowed by the claim) the
mask shift `0xFFFFFFFF << 32` overflows the `u32` shift, so extraction does
not return the written value 1. -/
theorem c3_counterexample :
    ¬(extract_value (writeBits 1 0 32) 0 32 = some 1) := by decide

/-- C4: sign extension round-trips two's complement for every
`size ∈ [1,32]` and `v ∈ [−2^(size−1), 2^(size−1)−1]`, and the three literal
scenarios hold. -/
theorem c4_sign_extension_roundtrip :
    (∀ (size : Nat) (v : Int), 1 ≤ size → size ≤ 32 →
        -((2 : Int) ^ (size - 1)) ≤ v → v ≤ (2 : Int) ^ (size - 1) - 1 →
        Report.signed (twosComplement v size) size = some v) ∧
    Report.signed 0xE5 8 = some (-27) ∧
    Report.signed 0x7F 8 = some 127 ∧
    Report.signed 0x81 8 = some (-127) :=
  ⟨signed_twosComplement, by decide, by decide, by decide⟩

/-- Witness for C4: −27 encodes as 0xE5 in 8 bits and decodes back. -/
theorem c4_witness :
    Report.signed (twosComplement (-27) 8) 8 = some (-27) :=
  c4_sign_extension_roundtrip.1 8 (-27) (by decide) (by decide) (by decide)
    (by decide)

/-- C5 (amended): a Main/Input or Main/Collection item leaves the Global
table unchanged and resets the Local table to empty; Main Output, Feature,
Reserved and EndCollection items leave both tables exactly as they were (the
code `continue`s without clearing the Local table, contrary to the claim). -/
theorem c5_local_reset_amended (s : AsmState) (m : MainItem) (s' : AsmState)
    (h : readItem s (.main m) = some s') :
    s'.state.global = s.state.global ∧
    (match m with
     | .input _ => s'.state.loc = LocalItems.new
     | .collection _ => s'.state.loc = LocalItems.new
     | _ => s'.state.loc = s.state.loc) := by
  cases m with
  | input dta =>
      simp only [readItem, Option.map_eq_some'] at h
      obtain ⟨out, hout, rfl⟩ := h
      obtain ⟨hg, hl, -, -⟩ := create_input_item_spec _ _ _ _ _ hout
      exact ⟨hg, hl⟩
  | output dta =>
      simp only [readItem] at h
      cases h
      exact ⟨rfl, rfl⟩
  | feature dta =>
      simp only [readItem] at h
      cases h
      exact ⟨rfl, rfl⟩
  | reserved =>
      simp only [readItem] at h
      cases h
      exact ⟨rfl, rfl⟩
  | collection c =>
      simp only [readItem] at h
      split_ifs at h
      simp only [Option.bind_eq_bind, Option.bind_eq_some] at h
      obtain ⟨u, hu, h⟩ := h
      cases h
      exact ⟨rfl, rfl⟩
  | endCollection =>
      rcases hst : s.stack with _ | ⟨top, _ | ⟨parent, rest⟩⟩ <;>
        simp only [readItem, hst] at h <;> first
          | (cases h; exact ⟨rfl, rfl⟩)
          | cases h

/-- Witness for C5: after a successful Main/Input step the Global table is
preserved and the Local table is the empty table. -/
theorem c5_witness :
    c5WitnessResult.state.global = c5WitnessState.state.global ∧
    c5WitnessResult.state.loc = LocalItems.new :=
  c5_local_reset_amended c5WitnessState (.input 2) c5WitnessResult (by rfl)

/-- Counterexample for C5 as stated: a Main/Output item processed while the
Local table holds a usage leaves the Local table non-empty (the claim says
the Local table is empty after every Main item). -/
theorem c5_counterexample :
    ¬((readItem c5CexState (.main (.output 0))).map (fun s => s.state.loc) =
      some LocalItems.new) := by decide

/-- C6 (amended): decoding a non-constant Field yields usages described by
`describedUsage`: `usages[i]` for `i < |usages|`; otherwise, when
`usage_minimum = (page, u)` is set, `(page, u + |usages| + i)` (in `u16`
arithmetic) — not `(page, u + i)` and with no bounding by `usage_maximum`;
otherwise the last element of `usages`. -/
theorem c6_usage_assignment_amended (r : Report) (flags : Nat)
    (buf : List Nat) (ins : List Input) (hty : r.report_type = .input flags)
    (hflag : ¬(flags &&& 1 = 1)) (h : Report.parse r buf = some ins) :
    ins.map Input.usage =
      (List.range r.report_count).map (describedUsage r) := by
  simp only [Report.parse, hty, if_neg hflag] at h
  refine mapM_option_rel _ Input.usage (describedUsage r) _ _ h ?_
  intro i b hb
  try dsimp only at hb
  rw [Option.bind_eq_bind, Option.bind_eq_some] at hb
  obtain ⟨u, hu, hb⟩ := hb
  try dsimp only at hb
  rw [Option.bind_eq_bind, Option.bind_eq_some] at hb
  obtain ⟨bv, hbv, hb⟩ := hb
  split at hb
  · cases hb
    exact usageFor_eq_describedUsage r i u hu
  · split_ifs at hb
    · cases hb
      exact usageFor_eq_describedUsage r i u hu
    · cases hsig : Report.signed bv r.report_size with
      | none => rw [hsig] at hb; cases hb
      | some z =>
          rw [hsig] at hb
          cases hb
          exact usageFor_eq_describedUsage r i u hu

/-- Witness for C6: scenario 6 — UsageMinimum 1, no Usage items, 14 one-bit
controls; the decoded usages follow `describedUsage`, i.e. 0x01..0x0E. -/
theorem c6_witness :
    c6ScenarioInputs.map Input.usage =
      (List.range c6ScenarioReport.report_count).map
        (describedUsage c6ScenarioReport) :=
  c6_usage_assignment_amended c6ScenarioReport 2 [0, 0] c6ScenarioInputs rfl
    (by decide) (by rfl)

example :
    c6ScenarioInputs.map Input.usage =
      [(9, 1), (9, 2), (9, 3), (9, 4), (9, 5), (9, 6), (9, 7), (9, 8), (9, 9),
       (9, 10), (9, 11), (9, 12), (9, 13), (9, 14)] := by decide

/-- Counterexample for C6 as stated: with one Usage (1,9), UsageMinimum
(1,5), UsageMaximum (1,6) and two leaves, the claim predicts usage
`(1, 5 + 1) = (1,6)` for the second leaf (bounded by the maximum), but the
code assigns `(1, 5 + |usages| + 1) = (1,7)`. -/
theorem c6_counterexample :
    (Report.parse c6CexReport [17, 34]).map (fun l => l.map Input.usage) =
      some [(1, 9), (1, 7)] ∧ ((1, 7) : Nat × Nat) ≠ (1, 6) := by
  constructor
  · rfl
  · decide

/-- C7: the claim (and the `report_id` field's own comment) says decoding
selects Fields by the buffer's first byte, starts the payload at bit 8, and
fails with ReportIdMismatch on an unknown ID.  The code ignores `report_id`
entirely: a Field tagged ID 2 decodes buffer `[2, 0xFF]` from bit 0 — the
value is the ID byte 2, not 0xFF — and buffer `[9, 0xFF]` (unknown ID)
decodes without any error; no ReportIdMismatch exists in the code. -/
theorem c7_report_id_ignored_bug :
    Report.parse c7Report [2, 255] =
      some [{ usage := (1, 1), value := .uint 2 }] ∧
    Report.parse c7Report [9, 255] =
      some [{ usage := (1, 1), value := .uint 9 }] := by
  constructor
  · rfl
  · rfl

/-- C8: the claim says a too-short buffer yields a returned ReportTooShort
error.  The code has no error channel at all (`// TODO check bounds!`): the
slice `report[first_byte..=last_byte]` goes out of bounds and panics
(modelled as `none`).  A one-byte Field on the empty buffer panics, while
the same Field on a one-byte buffer decodes fine. -/
theorem c8_short_report_panics_bug :
    Report.parse c8Report [] = none ∧
    Report.parse c8Report [65] =
      some [{ usage := (1, 1), value := .uint 65 }] := by
  constructor
  · rfl
  · rfl

/-- C9 (amended): the Collection data byte maps 0..6 to the seven named
types, 7..0x7E to Reserved, and 0x7F..0xFF to Vendor(n): the Rust guard is
the half-open range `(7..0x7F)`, so 0x7F is Vendor, not Reserved as the
claim says. -/
theorem c9_collection_type_mapping_amended (n : Nat) (h : n ≤ 255) :
    BCollection.new n =
      if n = 0 then .physical
      else if n = 1 then .application
      else if n = 2 then .logical
      else if n = 3 then .report
      else if n = 4 then .namedArray
      else if n = 5 then .usageSwitch
      else if n = 6 then .usageModifier
      else if n ≤ 0x7E then .reserved
      else .vendor n := by
  interval_cases n <;> rfl

/-- Witness for C9: data byte 0x7E maps to Reserved. -/
theorem c9_witness : BCollection.new 126 = BCollection.reserved := by
  have h := c9_collection_type_mapping_amended 126 (by decide)
  simpa using h

/-- Counterexample for C9 as stated: data byte 0x7F is claimed Reserved but
maps to Vendor(0x7F). -/
theorem c9_counterexample :
    ¬(BCollection.new 0x7F = BCollection.reserved) := by decide

/-- C10: decoding a non-constant Field with at least one leaf panics when
`usages` is empty and `usage_minimum` unset (the sticky-last-usage branch
indexes `usages[|usages| − 1]` out of bounds), for every report buffer; and
under the precondition (non-empty `usages` or a set `usage_minimum`) every
usage lookup for `i < report_count` is in bounds — in particular, when
`usage_minimum` is unset the lookup branch always succeeds. -/
theorem c10_parse_usage_totality (r : Report) (flags : Nat)
    (hty : r.report_type = .input flags) (hflag : ¬(flags &&& 1 = 1))
    (hcount : 1 ≤ r.report_count) :
    (r.usages = [] ∧ r.usage_minimum = none →
      ∀ buf, Report.parse r buf = none) ∧
    ((r.usages ≠ [] ∨ r.usage_minimum.isSome) →
      ∀ i, i < r.report_count → r.usage_minimum = none →
        (usageFor r i).isSome) := by
  constructor
  · rintro ⟨hus, hmin⟩ buf
    obtain ⟨m, hm⟩ : ∃ m, r.report_count = m + 1 :=
      ⟨r.report_count - 1, by omega⟩
    have h0 : usageFor r 0 = none := by simp [usageFor, hus, hmin]
    simp only [Report.parse, hty, if_neg hflag, hm, List.range_succ_eq_map,
      List.mapM_cons]
    simp [h0]
  · rintro hpre i hi hminNone
    by_cases hlt : i < r.usages.length
    · simp only [usageFor, if_pos hlt]
      rw [List.get?_eq_get hlt]
      rfl
    · have hus : r.usages ≠ [] := by
        rcases hpre with h' | h'
        · exact h'
        · rw [hminNone] at h'
          simp at h'
      have hlen : 0 < r.usages.length := List.length_pos.mpr hus
      simp only [usageFor, if_neg hlt, hminNone]
      rw [List.get?_eq_get
        (show r.usages.length - 1 < r.usages.length from by omega)]
      rfl

/-- Witness for C10: the concrete Field with no usages and no usage minimum
panics on any buffer (here the empty one). -/
theorem c10_witness : Report.parse c10Report [] = none :=
  (c10_parse_usage_totality c10Report 2 rfl (by decide) (by decide)).1
    ⟨rfl, rfl⟩ []
